import Mathlib

/-!
# Verification of the CSV field-mapping and ingestion pipeline

Shallow embedding of the core slice of the `fall` repository:

* `parseCSVLine`        — `src/server/routes.ts` lines 49-78
* `deriveTimezone`      — timezone utility (copy embedded in `src/deploy.bat`,
                          lines 461-532: `STATE_TIMEZONE_MAP`,
                          `COUNTRY_TIMEZONE_MAP`, `deriveTimezone`)
* auto-detect mapper    — `src/client/src/components/csv-field-mapper.tsx`
                          lines 53-99 (the `deploy.bat` variant, lines 122-153,
                          has the same matching rule)
* upload pipeline       — `src/server/routes.ts` lines 140-230
                          (`POST /api/campaigns/upload`), composed with the
                          client-side required-field gate of
                          `csv-field-mapper.tsx` `handleSave` (lines 135-149)

JavaScript strings are modelled by Lean `String`; the JS whitespace set used
by `trim` is modelled by the ASCII set {space, tab, LF, CR, VT, FF}; a JS
`Record<string,string>` (object with string keys in insertion order) is
modelled by an association list `List (String × String)`; positional indexing
`values[index] || ''` is modelled by `(values.get? index).getD ""` (both the
missing index and the empty string are falsy and yield `""`); the external
`encrypt` collaborator is a black box, so `CampaignData` is kept in plaintext
in the persisted record.
-/

/-- Whitespace characters removed by JS `String.prototype.trim`
(ASCII subset; the inputs in this code base are ASCII). -/
def jsWhitespaceChar (c : Char) : Bool :=
  c = ' ' || c = '\t' || c = '\n' || c = '\r' || c = '\x0b' || c = '\x0c'

/-- JS `s.trim()` on a character list: drop leading and trailing whitespace. -/
def jsTrimList (l : List Char) : List Char :=
  ((l.dropWhile jsWhitespaceChar).reverse.dropWhile jsWhitespaceChar).reverse

/-- JS `s.trim()`. -/
def jsTrim (s : String) : String :=
  ⟨jsTrimList s.data⟩

/-- JS `s.toUpperCase()` (ASCII; the inputs in this code base are ASCII). -/
def jsToUpper (s : String) : String :=
  ⟨s.data.map Char.toUpper⟩

/-- JS `s.toLowerCase()` (ASCII). -/
def jsToLower (s : String) : String :=
  ⟨s.data.map Char.toLower⟩

/-- JS `s.split(sep)` for a single-character separator, on character lists:
accumulates the current chunk and emits it at each separator. -/
def jsSplitAux (sep : Char) : List Char → List Char → List String
  | [], current => [⟨current.reverse⟩]
  | c :: rest, current =>
    if c = sep then ⟨current.reverse⟩ :: jsSplitAux sep rest []
    else jsSplitAux sep rest (c :: current)

/-- JS `s.split(sep)` for a single-character separator
(`"".split(sep)` is `[""]`, like in JS). -/
def jsSplit (s : String) (sep : Char) : List String :=
  jsSplitAux sep s.data []

/-- `parseCSVLine` loop (`routes.ts` 54-73): one character at a time, with the
accumulated current field, the `inQuotes` flag, and the fields emitted so far.
A `"` inside quotes followed by another `"` emits a literal quote and skips the
second one; any other `"` toggles `inQuotes`; a `,` outside quotes emits the
trimmed current field; everything else is appended verbatim. -/
def parseCSVLineAux : List Char → Bool → List Char → List String → List String
  | [], _, current, result => result ++ [⟨jsTrimList current⟩]
  | '"' :: '"' :: rest2, true, current, result =>
    parseCSVLineAux rest2 true (current ++ ['"']) result
  | '"' :: rest, inQuotes, current, result =>
    parseCSVLineAux rest (!inQuotes) current result
  | c :: rest, inQuotes, current, result =>
    if c = ',' && !inQuotes then
      parseCSVLineAux rest inQuotes [] (result ++ [⟨jsTrimList current⟩])
    else
      parseCSVLineAux rest inQuotes (current ++ [c]) result

/-- `parseCSVLine` (`routes.ts` 49-78). -/
def parseCSVLine (line : String) : List String :=
  parseCSVLineAux line.data false [] []

/-- C6: the CSV line parser handles quoting and the `""` escape as the spec's
examples state: commas inside quoted fields do not split, and a doubled quote
inside a quoted field yields one literal quote. -/
theorem parseCSVLine_quote_examples :
    parseCSVLine "a,\"b,c\",d" = ["a", "b,c", "d"] ∧
    parseCSVLine "a,\"b\"\"c\",d" = ["a", "b\"c", "d"] := by
  constructor <;> rfl

/-! ## Timezone Deriver (`deploy.bat` 461-532) -/

/-- `STATE_TIMEZONE_MAP` (`deploy.bat` 461-486), entries in source order. -/
def STATE_TIMEZONE_MAP : List (String × String) :=
  [("CT", "EST"), ("DE", "EST"), ("FL", "EST"), ("GA", "EST"), ("ME", "EST"),
   ("MD", "EST"), ("MA", "EST"), ("NH", "EST"), ("NJ", "EST"), ("NY", "EST"),
   ("NC", "EST"), ("OH", "EST"), ("PA", "EST"), ("RI", "EST"), ("SC", "EST"),
   ("VT", "EST"), ("VA", "EST"), ("WV", "EST"),
   ("AL", "CST"), ("AR", "CST"), ("IL", "CST"), ("IA", "CST"), ("KS", "CST"),
   ("KY", "CST"), ("LA", "CST"), ("MN", "CST"), ("MS", "CST"), ("MO", "CST"),
   ("NE", "CST"), ("ND", "CST"), ("OK", "CST"), ("SD", "CST"), ("TN", "CST"),
   ("TX", "CST"), ("WI", "CST"),
   ("AZ", "MST"), ("CO", "MST"), ("ID", "MST"), ("MT", "MST"), ("NV", "MST"),
   ("NM", "MST"), ("UT", "MST"), ("WY", "MST"),
   ("CA", "PST"), ("OR", "PST"), ("WA", "PST"),
   ("AK", "AKST"),
   ("HI", "HST")]

/-- `COUNTRY_TIMEZONE_MAP` (`deploy.bat` 488-511), entries in source order. -/
def COUNTRY_TIMEZONE_MAP : List (String × String) :=
  [("US", "EST"), ("USA", "EST"), ("United States", "EST"),
   ("Canada", "EST"), ("CA", "EST"),
   ("Mexico", "CST"), ("MX", "CST"),
   ("UK", "GMT"), ("United Kingdom", "GMT"), ("GB", "GMT"),
   ("Germany", "CET"), ("DE", "CET"),
   ("France", "CET"), ("FR", "CET"),
   ("Japan", "JST"), ("JP", "JST"),
   ("Australia", "AEST"), ("AU", "AEST"),
   ("India", "IST"), ("IN", "IST"),
   ("China", "CST"), ("CN", "CST")]

/-- JS object lookup `m[k]` for a `Record<string,string>` modelled as an
association list (keys unique, insertion order). Every value in the two
timezone tables is a nonempty string, so JS truthiness of `m[k]` coincides
with `isSome`. -/
def recGet (m : List (String × String)) (k : String) : Option String :=
  (m.find? (fun p => p.1 = k)).map Prod.snd

/-- `deriveTimezone` (`deploy.bat` 513-532). An `undefined` argument of the
optional TS parameters behaves exactly like `""` (both falsy, and `""` is a
key of neither table), so both arguments are modelled as `String`. -/
def deriveTimezone (state country : String) : String :=
  match (if state ≠ "" then recGet STATE_TIMEZONE_MAP (jsTrim (jsToUpper state)) else none) with
  | some tz => tz
  | none =>
    match (if country ≠ "" then recGet COUNTRY_TIMEZONE_MAP (jsTrim country) else none) with
    | some tz => tz
    | none => "NA"

/-- C7: state lookup wins over country lookup, and the sentinel `"NA"` is
returned when neither table matches. -/
theorem deriveTimezone_precedence_examples :
    deriveTimezone "CA" "Germany" = "PST" ∧
    deriveTimezone "" "Germany" = "CET" ∧
    deriveTimezone "" "" = "NA" ∧
    deriveTimezone "xx" "zz" = "NA" := by
  refine ⟨?_, ?_, ?_, ?_⟩ <;> decide

/-- Spec-side: the closed set of 12 timezone codes named in §4.2 of the spec. -/
def specTimezoneCodes : List String :=
  ["EST", "CST", "MST", "PST", "AKST", "HST", "GMT", "CET", "JST", "AEST", "IST", "NA"]

/-- Spec-side: the 50 US state two-letter postal codes. -/
def specUsStateCodes : List String :=
  ["AL", "AK", "AZ", "AR", "CA", "CO", "CT", "DE", "FL", "GA",
   "HI", "ID", "IL", "IN", "IA", "KS", "KY", "LA", "ME", "MD",
   "MA", "MI", "MN", "MS", "MO", "MT", "NE", "NV", "NH", "NJ",
   "NM", "NY", "NC", "ND", "OH", "OK", "OR", "PA", "RI", "SC",
   "SD", "TN", "TX", "UT", "VT", "VA", "WA", "WV", "WI", "WY"]

/-- C3 counterexample: the state table has 48 entries, not 50; the state codes
`"IN"` (Indiana) and `"MI"` (Michigan) have no entry, so not every US state
two-letter code is covered. -/
theorem STATE_TIMEZONE_MAP_size_counterexample :
    STATE_TIMEZONE_MAP.length = 48 ∧ STATE_TIMEZONE_MAP.length ≠ 50 ∧
    recGet STATE_TIMEZONE_MAP "IN" = none ∧
    recGet STATE_TIMEZONE_MAP "MI" = none := by
  refine ⟨rfl, by decide, rfl, rfl⟩

/-- C3 amended: the fixed US-state-to-timezone table contains exactly 48
entries with pairwise distinct keys, spanning exactly the Eastern, Central,
Mountain, Pacific, Alaska and Hawaii zone codes; every US state two-letter
code except `"IN"` and `"MI"` has an entry. -/
theorem STATE_TIMEZONE_MAP_amended :
    STATE_TIMEZONE_MAP.length = 48 ∧
    (STATE_TIMEZONE_MAP.map Prod.fst).Nodup ∧
    (∀ p ∈ STATE_TIMEZONE_MAP, p.2 ∈ ["EST", "CST", "MST", "PST", "AKST", "HST"]) ∧
    (∀ z ∈ ["EST", "CST", "MST", "PST", "AKST", "HST"],
      z ∈ STATE_TIMEZONE_MAP.map Prod.snd) ∧
    (∀ s ∈ specUsStateCodes, s ≠ "IN" → s ≠ "MI" →
      (recGet STATE_TIMEZONE_MAP s).isSome) ∧
    (∀ s ∈ specUsStateCodes, s ∈ STATE_TIMEZONE_MAP.map Prod.fst ∨ s = "IN" ∨ s = "MI") := by
  refine ⟨rfl, by decide, by decide, by decide, by decide, by decide⟩

/-- `recGet m k = some v` means `v` is one of the values stored in `m`. -/
theorem recGet_some_mem {m : List (String × String)} {k v : String}
    (h : recGet m k = some v) : v ∈ m.map Prod.snd := by
  unfold recGet at h
  cases hf : m.find? (fun p => p.1 = k) with
  | none => rw [hf] at h; simp at h
  | some p =>
    rw [hf, Option.map_some'] at h
    cases h
    exact List.mem_map_of_mem Prod.snd (List.mem_of_find?_eq_some hf)

/-- C9: `deriveTimezone` is total and its result always lies in the closed
12-element code set {EST, CST, MST, PST, AKST, HST, GMT, CET, JST, AEST, IST,
NA}, for every pair of argument strings (an `undefined` TS argument behaves
as `""`). -/
theorem deriveTimezone_range (state country : String) :
    deriveTimezone state country ∈ specTimezoneCodes := by
  have hs : ∀ v ∈ STATE_TIMEZONE_MAP.map Prod.snd, v ∈ specTimezoneCodes := by decide
  have hc : ∀ v ∈ COUNTRY_TIMEZONE_MAP.map Prod.snd, v ∈ specTimezoneCodes := by decide
  unfold deriveTimezone
  split
  · next tz h1 =>
    split at h1
    · exact hs tz (recGet_some_mem h1)
    · exact absurd h1 (by simp)
  · split
    · next tz h2 =>
      split at h2
      · exact hc tz (recGet_some_mem h2)
      · exact absurd h2 (by simp)
    · decide

/-! ## Field Auto-Mapper (`csv-field-mapper.tsx` 17-99; same matching rule in
the `deploy.bat` variant, lines 122-153) -/

/-- `STANDARD_FIELDS` (`csv-field-mapper.tsx` 17-31). -/
def STANDARD_FIELDS : List String :=
  ["First Name", "Last Name", "Title", "Company", "Email",
   "Mobile Phone", "Other Phone", "Corporate Phone",
   "Person Linkedin Url", "Company Linkedin Url",
   "Website", "State", "Country"]

/-- `REQUIRED_FIELDS` (`csv-field-mapper.tsx` 33). -/
def REQUIRED_FIELDS : List String :=
  ["First Name", "Last Name", "Email"]

/-- JS `s.replace(/[^a-z0-9]/g, '')`: keep only lowercase letters and digits. -/
def keepAlnum (s : String) : String :=
  ⟨s.data.filter (fun c => ('a' ≤ c && c ≤ 'z') || ('0' ≤ c && c ≤ '9'))⟩

/-- The normalization applied to both canonical field names and raw headers
(`csv-field-mapper.tsx` 65, 68): lowercase, then strip every character that is
not `[a-z0-9]`. -/
def jsNormalize (s : String) : String :=
  keepAlnum (jsToLower s)

/-- `needle` starts the list `l`. -/
def startsWithList : List Char → List Char → Bool
  | [], _ => true
  | _ :: _, [] => false
  | p :: ps, c :: cs => p = c && startsWithList ps cs

/-- JS `hay.includes(needle)`: `needle` occurs as a contiguous substring. -/
def listContainsSub : List Char → List Char → Bool
  | [], needle => needle.isEmpty
  | c :: rest, needle => startsWithList needle (c :: rest) || listContainsSub rest needle

/-- JS `s.includes(sub)`. -/
def strIncludes (s sub : String) : Bool :=
  listContainsSub s.data sub.data

/-- The keyword rule (`csv-field-mapper.tsx` 77-80) applied to an
already-normalized header `nh`: every space-separated token of the lowercased
canonical field name, itself stripped to `[a-z0-9]`, occurs in `nh`. -/
def keywordMatchOn (standardField nh : String) : Bool :=
  (jsSplit (jsToLower standardField) ' ').all (fun kw => strIncludes nh (keepAlnum kw))

/-- The keyword rule on a raw header. -/
def keywordMatch (standardField header : String) : Bool :=
  keywordMatchOn standardField (jsNormalize header)

/-- The predicate of the `validHeaders.find(...)` callback
(`csv-field-mapper.tsx` 67-87): a single header matches if it is a direct
match (normalized equality) or a keyword match. -/
def headerMatches (standardField header : String) : Bool :=
  let normalizedHeader := jsNormalize header
  (normalizedHeader = jsNormalize standardField) || keywordMatchOn standardField normalizedHeader

/-- `validHeaders.find(header => ...)` for one canonical field
(`csv-field-mapper.tsx` 67): ONE left-to-right pass over the headers, taking
the first header that satisfies either rule. -/
def autoDetectField (standardField : String) (validHeaders : List String) : Option String :=
  validHeaders.find? (fun header => headerMatches standardField header)

/-- JS object write `m[k] = v`: overwrite in place when the key exists,
append otherwise. -/
def recSet (m : List (String × String)) (k v : String) : List (String × String) :=
  if m.any (fun p => p.1 = k) then m.map (fun p => if p.1 = k then (k, v) else p)
  else m ++ [(k, v)]

/-- The auto-detect effect on first render (`csv-field-mapper.tsx` 50-99,
with `manualOverrides` empty): filter out blank headers, then give each
standard field the first header matched by `autoDetectField`. -/
def autoDetectMappings (csvHeaders : List String) : List (String × String) :=
  let validHeaders := csvHeaders.filter (fun header => jsTrim header ≠ "")
  STANDARD_FIELDS.foldl
    (fun acc standardField =>
      match autoDetectField standardField validHeaders with
      | some header => recSet acc standardField header
      | none => acc)
    []

/-- C2 counterexample: for the canonical field `"Email"` and headers
`["Work Email", "Email"]`, the later header `"Email"` is a direct match
(normalized equality) and the earlier header `"Work Email"` is only a keyword
match, yet the auto-mapper picks `"Work Email"` — the direct match does NOT
take priority over an earlier keyword match. -/
theorem autoDetect_single_pass_counterexample :
    jsNormalize "Work Email" ≠ jsNormalize "Email" ∧
    keywordMatch "Email" "Work Email" = true ∧
    jsNormalize "Email" = jsNormalize "Email" ∧
    autoDetectField "Email" ["Work Email", "Email"] = some "Work Email" ∧
    autoDetectField "Email" ["Work Email", "Email"] ≠ some "Email" ∧
    recGet (autoDetectMappings ["Work Email", "Email"]) "Email" = some "Work Email" := by
  refine ⟨by decide, by decide, rfl, by decide, by decide, by decide⟩

/-- `List.find?` only depends on the pointwise behavior of its predicate. -/
theorem find?_congr_pred {α : Type} {p q : α → Bool} (l : List α)
    (hpq : ∀ a, p a = q a) : l.find? p = l.find? q := by
  induction l with
  | nil => rfl
  | cons a l ih => simp only [List.find?, hpq a]; rw [ih]

/-- For every canonical field, a direct match is also a keyword match:
the concatenation of the stripped keyword tokens is exactly the normalized
field name, so each token occurs in it. -/
theorem standard_field_direct_is_keyword :
    ∀ f ∈ STANDARD_FIELDS, keywordMatchOn f (jsNormalize f) = true := by
  decide

/-- C2 amended: the auto-mapper makes a SINGLE left-to-right pass over the
headers and picks the first header satisfying the direct rule or the keyword
rule; since for every canonical field a direct match also satisfies the
keyword rule, the chosen header is precisely the first keyword-matching
header — an earlier keyword-only match wins over a later direct match. -/
theorem autoDetectField_first_keyword_match (f : String) (hf : f ∈ STANDARD_FIELDS)
    (headers : List String) :
    autoDetectField f headers = headers.find? (fun header => keywordMatch f header) := by
  unfold autoDetectField
  refine find?_congr_pred headers (fun header => ?_)
  unfold headerMatches keywordMatch
  by_cases hd : jsNormalize header = jsNormalize f
  · simp only [hd, standard_field_direct_is_keyword f hf]
    decide
  · simp only [if_neg hd, Bool.false_or]
    simp [hd]

/-- Witness for C2's amended theorem at a concrete field and header list. -/
theorem autoDetectField_first_keyword_match_witness :
    autoDetectField "Email" ["Work Email", "Email"]
      = ["Work Email", "Email"].find? (fun header => keywordMatch "Email" header) :=
  autoDetectField_first_keyword_match "Email" (by decide) ["Work Email", "Email"]

/-! ## Ingestion pipeline (`routes.ts` 140-230) -/

/-- JS `str.replace(search, '')` with a plain-string search pattern removes
only the FIRST occurrence of `search` (`routes.ts` 209 uses
`file.originalname.replace('.csv', '')`). -/
def removeFirstOccAux (pat : List Char) : List Char → List Char
  | [] => []
  | c :: rest =>
    if startsWithList pat (c :: rest) then (c :: rest).drop pat.length
    else c :: removeFirstOccAux pat rest

/-- The persisted campaign name (`routes.ts` 209):
`file.originalname.replace('.csv', '')`. -/
def campaignName (originalname : String) : String :=
  ⟨removeFirstOccAux ".csv".data originalname.data⟩

/-- Index of the first position where `pat` starts inside the list, if any. -/
def firstOccIdx (pat : List Char) : List Char → Option Nat
  | [] => if pat.isEmpty then some 0 else none
  | c :: rest =>
    if startsWithList pat (c :: rest) then some 0
    else (firstOccIdx pat rest).map (· + 1)

/-- `removeFirstOccAux` deletes exactly the slice of length `pat.length`
starting at the first occurrence of `pat`, and is the identity when `pat`
does not occur. -/
theorem removeFirstOccAux_eq_splice (pat : List Char) (l : List Char) :
    removeFirstOccAux pat l =
      match firstOccIdx pat l with
      | none => l
      | some i => l.take i ++ l.drop (i + pat.length) := by
  induction l with
  | nil =>
    unfold removeFirstOccAux firstOccIdx
    cases pat <;> simp
  | cons c rest ih =>
    unfold removeFirstOccAux firstOccIdx
    by_cases hs : startsWithList pat (c :: rest)
    · simp [hs]
    · simp only [hs, if_neg, Bool.false_eq_true, not_false_eq_true, if_false, ih]
      cases hr : firstOccIdx pat rest with
      | none => simp
      | some i => simp [List.take_succ_cons, List.drop_succ_cons, Nat.succ_add]

/-- C4 counterexample: `".csv"` removal is first-occurrence, not
trailing-extension. For `"x.csvfoo.csv"` the code produces `"xfoo.csv"`
while the claim requires `"x.csvfoo"`; for `"a.csvb"` (whose only `".csv"` is
in the middle) the claim requires the name to stay unchanged, yet the code
produces `"ab"`. -/
theorem campaignName_counterexample :
    campaignName "x.csvfoo.csv" = "xfoo.csv" ∧
    campaignName "x.csvfoo.csv" ≠ "x.csvfoo" ∧
    campaignName "a.csvb" = "ab" ∧
    campaignName "a.csvb" ≠ "a.csvb" := by
  refine ⟨rfl, by decide, rfl, by decide⟩

/-- C4 amended: the persisted campaign name equals `originalFilename` with its
FIRST occurrence of the substring `".csv"` removed, and is unchanged when
`".csv"` does not occur; in particular the trailing `".csv"` extension is
stripped exactly when no earlier occurrence exists. -/
theorem campaignName_removes_first_occurrence (originalname : String) :
    campaignName originalname =
      match firstOccIdx ".csv".data originalname.data with
      | none => originalname
      | some i =>
        ⟨originalname.data.take i ++ originalname.data.drop (i + ".csv".data.length)⟩ := by
  unfold campaignName
  rw [removeFirstOccAux_eq_splice]
  cases firstOccIdx ".csv".data originalname.data <;> rfl

/-- Overwriting the entries with key `k` does not affect `find?` for another
key `k'`. -/
theorem find?_map_overwrite_ne (k v k' : String) (h : k' ≠ k) :
    ∀ m : List (String × String),
      (m.map (fun p => if p.1 = k then (k, v) else p)).find? (fun p => p.1 = k')
        = m.find? (fun p => p.1 = k') := by
  intro m
  induction m with
  | nil => rfl
  | cons p m ih =>
    simp only [List.map_cons, List.find?]
    by_cases hp : p.1 = k
    · have hp' : ¬ (p.1 = k') := fun hpk => h (hp.symm.trans hpk).symm
      simp only [if_pos hp, decide_eq_false hp',
        decide_eq_false (show ¬ ((k, v).1 = k') from fun hkk => h hkk.symm)]
      exact ih
    · simp only [if_neg hp]
      by_cases hp' : p.1 = k'
      · simp only [decide_eq_true hp']
      · simp only [decide_eq_false hp']
        exact ih

/-- Appending an entry with key `k` does not affect lookup for another key. -/
theorem recGet_append_single_ne (k v k' : String) (h : k' ≠ k) :
    ∀ m : List (String × String), recGet (m ++ [(k, v)]) k' = recGet m k' := by
  intro m
  induction m with
  | nil =>
    unfold recGet
    simp only [List.nil_append, List.find?,
      decide_eq_false (show ¬ ((k, v).1 = k') from fun hkk => h hkk.symm)]
  | cons p m ih =>
    unfold recGet at ih ⊢
    simp only [List.cons_append, List.find?]
    by_cases hp : p.1 = k'
    · simp only [decide_eq_true hp]
    · simp only [decide_eq_false hp]
      exact ih

/-- A JS object write does not change the value stored under other keys. -/
theorem recGet_recSet_ne (m : List (String × String)) (k v k' : String)
    (h : k' ≠ k) : recGet (recSet m k v) k' = recGet m k' := by
  unfold recSet
  by_cases hany : m.any (fun p => p.1 = k)
  · rw [if_pos hany]
    unfold recGet
    rw [find?_map_overwrite_ne k v k' h m]
  · rw [if_neg hany]
    exact recGet_append_single_ne k v k' h m

/-- After a JS object write, reading the written key yields the new value. -/
theorem recGet_recSet_self (m : List (String × String)) (k v : String) :
    recGet (recSet m k v) k = some v := by
  unfold recSet
  by_cases hany : m.any (fun p => p.1 = k)
  · rw [if_pos hany]
    induction m with
    | nil => simp at hany
    | cons p m ih =>
      simp only [List.map_cons, recGet, List.find?]
      by_cases hp : p.1 = k
      · simp only [if_pos hp]
        simp
      · simp only [if_neg hp, decide_eq_false hp]
        have hm : m.any (fun p => p.1 = k) := by
          rcases List.any_eq_true.mp hany with ⟨q, hq, hqk⟩
          have hqk' : q.1 = k := of_decide_eq_true hqk
          rcases List.mem_cons.mp hq with hqp | hqm
          · exact absurd (hqp ▸ hqk') hp
          · exact List.any_eq_true.mpr ⟨q, hqm, hqk⟩
        simpa [recGet] using ih hm
  · rw [if_neg hany]
    induction m with
    | nil =>
      unfold recGet
      simp
    | cons p m ih =>
      simp only [List.any_cons, Bool.or_eq_true, not_or] at hany
      have hp : ¬ p.1 = k := by simpa using hany.1
      have ih' := ih (by simpa using hany.2)
      unfold recGet at ih' ⊢
      simp only [List.cons_append, List.find?, decide_eq_false hp]
      exact ih'

/-- The `headers.forEach((header, index) => row[header] = values[index] || '')`
zip of the upload handler (`routes.ts` 177-179), with the running index. -/
def buildRawRowAux (values : List String) :
    List (String × String) → Nat → List String → List (String × String)
  | row, _, [] => row
  | row, i, header :: rest =>
    buildRawRowAux values (recSet row header ((values[i]?).getD "")) (i + 1) rest

/-- The `RawRow` built for one data line (`routes.ts` 174-179): start from the
empty object and assign `row[header] = values[index] || ''` left to right. -/
def buildRawRow (headers values : List String) : List (String × String) :=
  buildRawRowAux values [] 0 headers

/-- Headers not assigned later leave the row's value for `h` unchanged. -/
theorem buildRawRowAux_not_mem (values : List String) (h : String) :
    ∀ (headers : List String) (row : List (String × String)) (i : Nat),
      h ∉ headers →
      recGet (buildRawRowAux values row i headers) h = recGet row h := by
  intro headers
  induction headers with
  | nil => intro row i _; rfl
  | cons hd rest ih =>
    intro row i hnot
    have hne : h ≠ hd := fun hh => hnot (hh ▸ List.mem_cons_self hd rest)
    have hrest : h ∉ rest := fun hh => hnot (List.mem_cons_of_mem hd hh)
    unfold buildRawRowAux
    rw [ih _ (i + 1) hrest, recGet_recSet_ne _ _ _ _ hne]

/-- Splitting the header walk at a list split point. -/
theorem buildRawRowAux_append (values : List String) :
    ∀ (hs1 hs2 : List String) (row : List (String × String)) (i : Nat),
      buildRawRowAux values row i (hs1 ++ hs2)
        = buildRawRowAux values (buildRawRowAux values row i hs1) (i + hs1.length) hs2 := by
  intro hs1
  induction hs1 with
  | nil => intro hs2 row i; simp [buildRawRowAux]
  | cons hd rest ih =>
    intro hs2 row i
    simp only [List.cons_append, buildRawRowAux, List.append_eq]
    rw [ih]
    congr 1
    simp only [List.length_cons]
    omega

/-- The value the built row stores under a header is the data value at the
header's LAST occurrence index. -/
theorem buildRawRow_last_occurrence (values hs1 hs2 : List String) (h : String)
    (hnot : h ∉ hs2) :
    recGet (buildRawRow (hs1 ++ h :: hs2) values) h
      = some ((values[hs1.length]?).getD "") := by
  unfold buildRawRow
  rw [buildRawRowAux_append values hs1 (h :: hs2) [] 0]
  unfold buildRawRowAux
  rw [buildRawRowAux_not_mem values h hs2 _ _ hnot, Nat.zero_add,
    recGet_recSet_self]

/-- C10: when the parsed header row contains the same header at several
positions, the `RawRow` built for a data line maps that header to the value at
its last (rightmost) occurrence index — the later positional assignment
overwrites the earlier ones. -/
theorem buildRawRow_duplicate_header_last_wins
    (values earlier later : List String) (h : String) (hnot : h ∉ later) :
    recGet (buildRawRow (earlier ++ h :: later) values) h
      = some ((values[earlier.length]?).getD "") :=
  buildRawRow_last_occurrence values earlier later h hnot

/-- Witness for C10: headers `["A", "B", "A"]` with values `["1", "2", "3"]`
store `"3"` (the value under the last `"A"` column) for `"A"`; the value
`"1"` of the earlier duplicate column is dropped. -/
theorem buildRawRow_duplicate_header_last_wins_witness :
    recGet (buildRawRow (["A", "B"] ++ "A" :: []) ["1", "2", "3"]) "A"
      = some (((["1", "2", "3"][(["A", "B"] : List String).length]?)).getD "") :=
  buildRawRow_duplicate_header_last_wins ["1", "2", "3"] ["A", "B"] [] "A" (by decide)

/-- C8: when a data line parses to fewer fields than there are headers, the
built `RawRow` maps each header whose (last-occurrence) index lies beyond the
parsed value count to the empty string — short rows are zero-padded, never an
error. -/
theorem buildRawRow_short_row_empty
    (values earlier later : List String) (h : String) (hnot : h ∉ later)
    (hshort : values.length ≤ earlier.length) :
    recGet (buildRawRow (earlier ++ h :: later) values) h = some "" := by
  rw [buildRawRow_last_occurrence values earlier later h hnot,
    List.getElem?_eq_none hshort]
  rfl

/-- Witness for C8 at the spec's example: headers `["A", "B", "C"]` and a data
line producing only two fields map `"C"` to `""`. -/
theorem buildRawRow_short_row_empty_witness :
    recGet (buildRawRow (["A", "B"] ++ "C" :: []) ["x", "y"]) "C" = some "" :=
  buildRawRow_short_row_empty ["x", "y"] ["A", "B"] [] "C" (by decide) (by decide)

/-- The mapped (normalized) row for one data line (`routes.ts` 182-190):
apply `mappedRow[standardField] = row[csvHeader] || ''` over the supplied
mapping in insertion order, then append the derived `Time Zone` from the
mapped `State` and `Country` values. -/
def buildMappedRow (fieldMappings : List (String × String))
    (row : List (String × String)) : List (String × String) :=
  let mappedRow := fieldMappings.foldl
    (fun acc p => recSet acc p.1 ((recGet row p.2).getD "")) []
  let state := (recGet mappedRow "State").getD ""
  let country := (recGet mappedRow "Country").getD ""
  recSet mappedRow "Time Zone" (deriveTimezone state country)

/-- `csvContent.split('\n').filter(line => line.trim())` (`routes.ts` 161). -/
def nonBlankLines (csvContent : String) : List String :=
  (jsSplit csvContent '\n').filter (fun line => jsTrim line ≠ "")

/-- The plaintext of the encrypted payload (`routes.ts` 199-203); `encrypt`
is an external black box, so the payload is modelled before encryption. -/
structure CampaignData where
  headers : List String
  rows : List (List (String × String))
  fieldMappings : List (String × String)
deriving DecidableEq

/-- The argument of the `storage.createCampaign` call (`routes.ts` 208-213);
`campaignData` stands for the plaintext behind `encryptedData`. -/
structure CreateCampaignInput where
  name : String
  campaignData : CampaignData
  fieldMappings : List (String × String)
  recordCount : Nat
deriving DecidableEq

inductive UploadError where
  | emptyFile
deriving DecidableEq

/-- The server-side upload pipeline (`routes.ts` 160-213): split into
non-blank lines, reject an empty file, parse the header line, build a mapped
row (with derived timezone) for every data line, and assemble the
`createCampaign` input. -/
def serverUpload (csvContent : String) (fieldMappings : List (String × String))
    (originalname : String) : Except UploadError CreateCampaignInput :=
  match nonBlankLines csvContent with
  | [] => .error .emptyFile
  | headerLine :: dataLines =>
    let headers := parseCSVLine headerLine
    let dataRows := dataLines.map (fun line =>
      buildMappedRow fieldMappings (buildRawRow headers (parseCSVLine line)))
    let finalHeaders := fieldMappings.map Prod.fst ++ ["Time Zone"]
    let campaignData : CampaignData :=
      { headers := finalHeaders
        rows := dataRows
        fieldMappings := recSet fieldMappings "Time Zone" "Time Zone" }
    .ok { name := campaignName originalname
          campaignData := campaignData
          fieldMappings := campaignData.fieldMappings
          recordCount := dataRows.length }

/-- `getRequiredMissingFields` (`csv-field-mapper.tsx` 135): the required
fields whose mapping entry is absent or empty (`!mappings[field]`). -/
def getRequiredMissingFields (mappings : List (String × String)) : List String :=
  REQUIRED_FIELDS.filter (fun field =>
    match recGet mappings field with
    | none => true
    | some v => v == "")

/-- Outcome of an upload attempt started from the field-mapper dialog. -/
inductive UploadOutcome where
  | missingRequired (missing : List String)
  | emptyFile
  | success (c : CreateCampaignInput)
deriving DecidableEq

/-- Observable trace of one upload attempt: its outcome, how many data lines
were parsed, and how many `createCampaign` calls the storage collaborator
received. -/
structure UploadTrace where
  outcome : UploadOutcome
  dataRowParseCalls : Nat
  createCampaignCalls : Nat
deriving DecidableEq

/-- The ingestion flow as exposed to the user: `handleSave`
(`csv-field-mapper.tsx` 137-149) refuses to submit while a required field is
unmapped (the MissingRequiredFieldError of the spec), otherwise the mapping is
posted to the upload route, which runs `serverUpload` — parsing the
`dataLines` and calling `createCampaign` exactly once on success. -/
def uploadViaMapper (csvContent : String) (mappings : List (String × String))
    (originalname : String) : UploadTrace :=
  let missing := getRequiredMissingFields mappings
  if missing.isEmpty then
    match serverUpload csvContent mappings originalname with
    | .error .emptyFile => ⟨.emptyFile, 0, 0⟩
    | .ok c => ⟨.success c, (nonBlankLines csvContent).length - 1, 1⟩
  else ⟨.missingRequired missing, 0, 0⟩

/-- C1: whenever the supplied field mapping omits one of the required
canonical fields {First Name, Last Name, Email}, the pipeline stops with the
missing-required-fields error, parses zero data rows, and performs zero
`createCampaign` calls. -/
theorem upload_missing_required_gate (csvContent : String)
    (mappings : List (String × String)) (originalname : String) (field : String)
    (hfield : field ∈ REQUIRED_FIELDS) (hmiss : recGet mappings field = none) :
    (uploadViaMapper csvContent mappings originalname).outcome
        = .missingRequired (getRequiredMissingFields mappings) ∧
    getRequiredMissingFields mappings ≠ [] ∧
    (uploadViaMapper csvContent mappings originalname).dataRowParseCalls = 0 ∧
    (uploadViaMapper csvContent mappings originalname).createCampaignCalls = 0 := by
  have hmem : field ∈ getRequiredMissingFields mappings := by
    unfold getRequiredMissingFields
    refine List.mem_filter.mpr ⟨hfield, ?_⟩
    rw [hmiss]
  have hne : getRequiredMissingFields mappings ≠ [] := by
    intro hnil
    rw [hnil] at hmem
    exact absurd hmem (List.not_mem_nil field)
  have hemp : (getRequiredMissingFields mappings).isEmpty = false := by
    cases hm : getRequiredMissingFields mappings with
    | nil => exact absurd hm hne
    | cons a rest => rfl
  refine ⟨?_, hne, ?_, ?_⟩ <;> simp [uploadViaMapper, hemp]

/-- Witness for C1: a mapping with no `"Email"` entry is rejected without
parsing or persisting anything. -/
theorem upload_missing_required_gate_witness :
    (uploadViaMapper "Full Name,Email Address\nJane,jane@x.com"
        [("First Name", "Full Name"), ("Last Name", "Full Name")] "contacts.csv").outcome
        = .missingRequired
            (getRequiredMissingFields [("First Name", "Full Name"), ("Last Name", "Full Name")]) ∧
    getRequiredMissingFields [("First Name", "Full Name"), ("Last Name", "Full Name")] ≠ [] ∧
    (uploadViaMapper "Full Name,Email Address\nJane,jane@x.com"
        [("First Name", "Full Name"), ("Last Name", "Full Name")] "contacts.csv").dataRowParseCalls = 0 ∧
    (uploadViaMapper "Full Name,Email Address\nJane,jane@x.com"
        [("First Name", "Full Name"), ("Last Name", "Full Name")] "contacts.csv").createCampaignCalls = 0 :=
  upload_missing_required_gate "Full Name,Email Address\nJane,jane@x.com"
    [("First Name", "Full Name"), ("Last Name", "Full Name")] "contacts.csv"
    "Email" (by decide) (by decide)

/-- Writing a fresh key into a JS object appends the entry. -/
theorem recSet_append_of_not_mem (m : List (String × String)) (k v : String)
    (h : k ∉ m.map Prod.fst) : recSet m k v = m ++ [(k, v)] := by
  unfold recSet
  rw [if_neg]
  intro hany
  rcases List.any_eq_true.mp hany with ⟨p, hp, hpk⟩
  exact h ((of_decide_eq_true hpk) ▸ List.mem_map_of_mem Prod.fst hp)

/-- C5: for a CSV whose non-blank lines are a header plus N data lines, the
upload succeeds, the persisted `recordCount` is N, the encrypted payload has
exactly N rows, and its `headers` list is exactly as long as the key list of
its `fieldMappings` object (which has pairwise distinct keys). The supplied
mapping is a JS object (distinct keys) and, per the data model, never maps the
derived `"Time Zone"` field. -/
theorem upload_recordCount_invariant (csvContent : String)
    (fieldMappings : List (String × String)) (originalname : String)
    (hne : nonBlankLines csvContent ≠ [])
    (hnodup : (fieldMappings.map Prod.fst).Nodup)
    (htz : "Time Zone" ∉ fieldMappings.map Prod.fst) :
    ∃ c, serverUpload csvContent fieldMappings originalname = .ok c ∧
      c.recordCount = (nonBlankLines csvContent).length - 1 ∧
      c.campaignData.rows.length = (nonBlankLines csvContent).length - 1 ∧
      c.campaignData.headers.length = (c.campaignData.fieldMappings.map Prod.fst).length ∧
      (c.campaignData.fieldMappings.map Prod.fst).Nodup := by
  have hrs : recSet fieldMappings "Time Zone" "Time Zone"
      = fieldMappings ++ [("Time Zone", "Time Zone")] :=
    recSet_append_of_not_mem _ _ _ htz
  cases hl : nonBlankLines csvContent with
  | nil => exact absurd hl hne
  | cons headerLine dataLines =>
    simp only [serverUpload, hl]
    refine ⟨_, rfl, ?_, ?_, ?_, ?_⟩
    · simp
    · simp
    · rw [hrs]
      simp
    · rw [hrs]
      simp only [List.map_append, List.map_cons, List.map_nil, List.nodup_append]
      refine ⟨hnodup, List.nodup_singleton _, ?_⟩
      intro a ha hb
      rcases List.mem_singleton.mp hb with rfl
      exact htz ha

/-- Witness for C5: two non-blank data lines (a blank line in between is
skipped) give `recordCount = 2`, two payload rows, and matching
header/mapping-key counts. -/
theorem upload_recordCount_invariant_witness :
    ∃ c, serverUpload "h1,h2\nr1,r2\n\nr3,r4"
        [("First Name", "h1"), ("Last Name", "h2"), ("Email", "h2")] "c.csv" = .ok c ∧
      c.recordCount = (nonBlankLines "h1,h2\nr1,r2\n\nr3,r4").length - 1 ∧
      c.campaignData.rows.length = (nonBlankLines "h1,h2\nr1,r2\n\nr3,r4").length - 1 ∧
      c.campaignData.headers.length = (c.campaignData.fieldMappings.map Prod.fst).length ∧
      (c.campaignData.fieldMappings.map Prod.fst).Nodup :=
  upload_recordCount_invariant "h1,h2\nr1,r2\n\nr3,r4"
    [("First Name", "h1"), ("Last Name", "h2"), ("Email", "h2")] "c.csv"
    (by decide) (by decide) (by decide)
